import Mathlib

/-!
Shallow embedding of `src/network.rs` (crate `netstatatui`): the connection
acquisition core (NetworkMonitor).  Strings being parsed are modelled as
`List Char`; rendered output text as `String`; machine integers as `Nat`
with explicit bounds where Rust checks for overflow.  Filesystem reads are
modelled by an explicit environment record passed to the functions that
perform them in the source.
-/

/-- Value of one digit character under a radix, as in Rust
`char::to_digit(radix)`: `0`-`9`, then letters (either case) from 10 up,
rejected when the value reaches the radix. -/
def digitVal? (radix : Nat) (c : Char) : Option Nat :=
  let d? : Option Nat :=
    if '0' ≤ c ∧ c ≤ '9' then some (c.toNat - '0'.toNat)
    else if 'a' ≤ c ∧ c ≤ 'z' then some (c.toNat - 'a'.toNat + 10)
    else if 'A' ≤ c ∧ c ≤ 'Z' then some (c.toNat - 'A'.toNat + 10)
    else none
  match d? with
  | some d => if d < radix then some d else none
  | none => none

/-- Digit-folding loop of Rust `from_str_radix`: accumulate `acc * radix + d`
over the digit characters, failing on a non-digit or when the accumulator
would exceed the type's maximum (`bound` is one past the maximum, e.g.
`2^32` for `u32`). -/
def parseRadixAux (radix bound : Nat) : List Char → Nat → Option Nat
  | [], acc => some acc
  | c :: rest, acc =>
    match digitVal? radix c with
    | none => none
    | some d =>
      let acc' := acc * radix + d
      if acc' < bound then parseRadixAux radix bound rest acc' else none

/-- Rust `uN::from_str_radix` / `str::parse::<uN>`: empty input fails, an
optional leading `+` is allowed, a leading `-` on an unsigned type succeeds
only when every digit is zero (the checked subtraction from 0 underflows
otherwise), and otherwise the digits are folded with overflow checking. -/
def fromStrRadix? (radix bound : Nat) (cs : List Char) : Option Nat :=
  match cs with
  | [] => none
  | c :: rest =>
    if c = '+' then
      if rest.isEmpty then none else parseRadixAux radix bound rest 0
    else if c = '-' then
      if rest.isEmpty then none
      else
        match parseRadixAux radix bound rest 0 with
        | some 0 => some 0
        | _ => none
    else parseRadixAux radix bound cs 0

/-- Rust `str::split(sep)` for a single-character pattern: the empty string
yields one empty piece, and every separator occurrence starts a new piece. -/
def splitOnChar (sep : Char) : List Char → List (List Char)
  | [] => [[]]
  | c :: rest =>
    if c = sep then [] :: splitOnChar sep rest
    else
      match splitOnChar sep rest with
      | [] => [[c]]
      | p :: ps => (c :: p) :: ps

/-- Accumulator loop for `splitWhitespace`; `acc` holds the current word
reversed. -/
def splitWSAux : List Char → List Char → List (List Char)
  | [], acc => if acc.isEmpty then [] else [acc.reverse]
  | c :: rest, acc =>
    if c.isWhitespace then
      if acc.isEmpty then splitWSAux rest []
      else acc.reverse :: splitWSAux rest []
    else splitWSAux rest (c :: acc)

/-- Rust `str::split_whitespace`: split on runs of whitespace, discarding
empty pieces.  (`Char.isWhitespace` covers the ASCII whitespace present in
the kernel tables this program reads.) -/
def splitWhitespace (cs : List Char) : List (List Char) :=
  splitWSAux cs []

/-- Strip one trailing carriage return, as Rust `lines` does on each
newline-terminated piece. -/
def stripCR (cs : List Char) : List Char :=
  if cs.getLast? = some '\r' then cs.dropLast else cs

/-- Rust `str::lines`: split on `'\n'`, drop a final empty piece produced by
a trailing newline, and strip a trailing `'\r'` from every piece that was
newline-terminated (all but an unterminated final piece). -/
def rustLines (cs : List Char) : List (List Char) :=
  match cs with
  | [] => []
  | _ :: _ =>
    let parts := splitOnChar '\n' cs
    match parts.getLast? with
    | some [] => parts.dropLast.map stripCR
    | _ => parts.dropLast.map stripCR ++ parts.getLast?.toList

/-- Rust `str::trim`: remove whitespace from both ends. -/
def trimWS (cs : List Char) : List Char :=
  ((cs.dropWhile Char.isWhitespace).reverse.dropWhile Char.isWhitespace).reverse

/-- Rust `str::trim_start_matches(pat)` for a fixed nonempty string pattern:
repeatedly remove the pattern from the front while it is present.  The fuel
argument (`cs.length` at the call sites, via `trimStartMatches`) bounds the
repetition; each removal of a nonempty pattern strictly shortens the list,
so the fuel is never exhausted. -/
def trimStartAux (pat : List Char) : Nat → List Char → List Char
  | 0, cs => cs
  | fuel + 1, cs =>
    if pat ≠ [] ∧ pat.isPrefixOf cs then trimStartAux pat fuel (cs.drop pat.length)
    else cs

/-- Rust `str::trim_start_matches` for a string pattern. -/
def trimStartMatches (pat cs : List Char) : List Char :=
  trimStartAux pat cs.length cs

/-- Rust `str::trim_end_matches(ch)` for a character pattern: remove every
trailing occurrence. -/
def trimEndMatchesChar (ch : Char) (cs : List Char) : List Char :=
  (cs.reverse.dropWhile (fun c => c = ch)).reverse

/-- Rust `u8` / `Ipv4Addr` octet display glued with dots:
`Ipv4Addr::to_string` of the four octets. -/
def ipv4ToString (a b c d : Nat) : String :=
  Nat.repr a ++ "." ++ Nat.repr b ++ "." ++ Nat.repr c ++ "." ++ Nat.repr d

/-- One IPv6 group rendered as Rust `{:x}`: lowercase hex, no padding. -/
def segHex (n : Nat) : String :=
  (Nat.toDigits 16 n).asString

/-- Join rendered groups with `':'`, as the `fmt_subslice` helper of Rust's
`Ipv6Addr` display does (an empty slice contributes nothing). -/
def joinColon : List Nat → String
  | [] => ""
  | [s] => segHex s
  | s :: rest => segHex s ++ ":" ++ joinColon rest

/-- The zero-run search of Rust's `Ipv6Addr` display: walk the groups
keeping the current run of zero groups and the best (first, strictly
longest) run seen, each as (start, length). -/
def zeroSpanAux : List Nat → Nat → Nat × Nat → Nat × Nat → Nat × Nat
  | [], _, _, best => best
  | s :: rest, i, cur, best =>
    if s = 0 then
      let curStart := if cur.2 = 0 then i else cur.1
      let curLen := cur.2 + 1
      let best' := if curLen > best.2 then (curStart, curLen) else best
      zeroSpanAux rest (i + 1) (curStart, curLen) best'
    else zeroSpanAux rest (i + 1) (0, 0) best

/-- First longest run of zero groups, as (start, length). -/
def zeroSpan (segs : List Nat) : Nat × Nat :=
  zeroSpanAux segs 0 (0, 0) (0, 0)

/-- Group `i` (two bytes, big-endian within the group) of a 16-byte list. -/
def segAt (bytes : List Nat) (i : Nat) : Nat :=
  bytes.getD (2 * i) 0 * 256 + bytes.getD (2 * i + 1) 0

/-- Rust `Ipv6Addr::to_string` on 16 bytes: an IPv4-mapped address prints as
`::ffff:a.b.c.d`; otherwise the first strictly-longest run of at least two
zero groups is elided as `::` and the remaining groups print as lowercase
unpadded hex joined by `':'`. -/
def ipv6ToString (bytes : List Nat) : String :=
  let segs := (List.range 8).map (segAt bytes)
  if segs.take 6 = [0, 0, 0, 0, 0, 0xffff] then
    "::ffff:" ++ ipv4ToString (segAt bytes 6 / 256) (segAt bytes 6 % 256)
      (segAt bytes 7 / 256) (segAt bytes 7 % 256)
  else
    let span := zeroSpan segs
    if span.2 > 1 then
      joinColon (segs.take span.1) ++ "::" ++ joinColon (segs.drop (span.1 + span.2))
    else joinColon segs

/-- Byte `i` of the IPv6 branch of `parse_address`: slice two hex characters
at offset `2*i` (guarded, as in the source, by the slice end staying inside
the string) and parse them as a `u8`, defaulting to 0. -/
def ipv6ByteAt (cs : List Char) (i : Nat) : Nat :=
  if 2 * i + 2 ≤ cs.length then
    (fromStrRadix? 16 256 ((cs.drop (2 * i)).take 2)).getD 0
  else 0

/-- The 16-byte array built by the IPv6 loop of `parse_address`. -/
def ipv6Bytes (cs : List Char) : List Nat :=
  (List.range 16).map (ipv6ByteAt cs)

/-- The `let addr = if ... else if ... else ...` of `parse_address`: an
8-hex-digit address parses as a `u32` (default 0) and renders its
little-endian bytes as dotted decimal; a 32-hex-digit address parses as 16
bytes in the order given and renders as canonical IPv6 text; any other
length falls back to `"0.0.0.0"`. -/
def addrFromHex (addrHex : List Char) : String :=
  if addrHex.length = 8 then
    let addrNum := (fromStrRadix? 16 4294967296 addrHex).getD 0
    ipv4ToString (addrNum % 256) (addrNum / 256 % 256)
      (addrNum / 65536 % 256) (addrNum / 16777216 % 256)
  else if addrHex.length = 32 then
    ipv6ToString (ipv6Bytes addrHex)
  else "0.0.0.0"

/-- Embedding of `NetworkMonitor::parse_address`.  Every return site in the source is
`Ok(...)`, so the `Except` value is always `.ok`; the error type mirrors
the `anyhow::Result` wrapper.  A token without exactly one `':'` falls back
to `("0.0.0.0", 0)`; otherwise the port is the second piece as a hex `u16`
(default 0) and the address is rendered from the first piece by
`addrFromHex`. -/
def parse_address (cs : List Char) : Except String (String × Nat) :=
  let parts := splitOnChar ':' cs
  if parts.length ≠ 2 then .ok ("0.0.0.0", 0)
  else
    let addrHex := parts.getD 0 []
    let portHex := parts.getD 1 []
    let port := (fromStrRadix? 16 65536 portHex).getD 0
    .ok (addrFromHex addrHex, port)

/-- Outcome of `parse_address` as a plain value; justified by
`parse_address` returning `.ok` on every input (see the C4 theorem), with
the dead error branch mapped to the decoder's own fallback. -/
def parse_address_val (cs : List Char) : String × Nat :=
  (parse_address cs).toOption.getD ("0.0.0.0", 0)

/-- The state-code table of `parse_state`: the `match` on the parsed code
byte. -/
def tcpStateName (n : Nat) : String :=
  match n with
  | 1 => "ESTABLISHED"
  | 2 => "SYN_SENT"
  | 3 => "SYN_RECV"
  | 4 => "FIN_WAIT1"
  | 5 => "FIN_WAIT2"
  | 6 => "TIME_WAIT"
  | 7 => "CLOSE"
  | 8 => "CLOSE_WAIT"
  | 9 => "LAST_ACK"
  | 10 => "LISTEN"
  | 11 => "CLOSING"
  | _ => "UNKNOWN"

/-- Embedding of `NetworkMonitor::parse_state`: a protocol tag starting with `"UDP"`
short-circuits to the empty string; otherwise the hex field parses as a
`u8` (default 0) and is looked up in the state table.  Both return sites in
the source are `Ok(...)`. -/
def parse_state (stateHex : List Char) (protocol : String) : Except String String :=
  if "UDP".data.isPrefixOf protocol.data then .ok ""
  else .ok (tcpStateName ((fromStrRadix? 16 256 stateHex).getD 0))

/-- Outcome of `parse_state` as a plain value (always `.ok`, see
`parse_state`). -/
def parse_state_val (stateHex : List Char) (protocol : String) : String :=
  (parse_state stateHex protocol).toOption.getD ""

/-- The `Connection` record of the source. -/
structure Connection where
  protocol : String
  local_address : String
  local_port : Nat
  remote_address : String
  remote_port : Nat
  state : String
  pid : Option Nat
  process_name : Option String
deriving DecidableEq, Repr

/-- The `process_cache` field of `NetworkMonitor` (`HashMap<u32, String>`),
modelled as an association list with insert-replaces semantics. -/
abbrev Cache := List (Nat × String)

/-- Embedding of `HashMap::insert`: the new binding wins over any previous binding of
the same key. -/
def cacheInsert (c : Cache) (k : Nat) (v : String) : Cache :=
  (k, v) :: List.filter (fun p => p.1 ≠ k) c

/-- The filesystem surface the process-resolution code reads:
`procDir` is the entry-name listing of `/proc` in iteration order (`none`
when `read_dir` fails; entries whose iteration errs are already dropped by
the source's `.flatten()`); `fdLinks pid` lists, for `/proc/pid/fd`, each
entry's `read_link` target as text (`none` for the whole directory when
`read_dir` fails, `none` for an entry when `read_link` or UTF-8 conversion
fails); `comm pid` is the content of `/proc/pid/comm` (`none` when
unreadable). -/
structure ProcEnv where
  procDir : Option (List String)
  fdLinks : Nat → Option (List (Option (List Char)))
  comm : Nat → Option (List Char)

/-- Embedding of `NetworkMonitor::get_process_name`: read `/proc/pid/comm`, trim, and
return it; `None` when the read fails. -/
def get_process_name (env : ProcEnv) (pid : Nat) : Option String :=
  (env.comm pid).map (fun s => (trimWS s).asString)

/-- The fixed pattern a socket descriptor's link target starts with. -/
def socketPat : List Char := "socket:[".data

/-- The descriptor loop of `get_process_name_by_inode`: for each readable
link target starting with `socket:[`, strip the pattern and trailing `]`,
parse the inode as `u32`, and on a hit return the process name (which may
itself be `None` when `comm` is unreadable — the source returns it as-is);
otherwise keep scanning. -/
def fdScan (env : ProcEnv) (pid target : Nat) : List (Option (List Char)) → Option String
  | [] => none
  | none :: rest => fdScan env pid target rest
  | some link :: rest =>
    if socketPat.isPrefixOf link then
      let inodeStr := trimEndMatchesChar ']' (trimStartMatches socketPat link)
      match fromStrRadix? 10 4294967296 inodeStr with
      | some inode =>
        if inode = target then get_process_name env pid
        else fdScan env pid target rest
      | none => fdScan env pid target rest
    else fdScan env pid target rest

/-- Embedding of `NetworkMonitor::get_process_name_by_inode`: scan the process's open
descriptors; an unreadable descriptor directory yields `None`. -/
def get_process_name_by_inode (env : ProcEnv) (pid target : Nat) : Option String :=
  match env.fdLinks pid with
  | none => none
  | some entries => fdScan env pid target entries

/-- The `/proc` entry loop of `get_process_info`: entry names that parse as
a `u32` pid are checked via `get_process_name_by_inode`; the first pid
returning a name is the match. -/
def procScan (env : ProcEnv) (target : Nat) : List String → Option (Nat × String)
  | [] => none
  | nm :: rest =>
    match fromStrRadix? 10 4294967296 nm.data with
    | none => procScan env target rest
    | some pid =>
      match get_process_name_by_inode env pid target with
      | some pname => some (pid, pname)
      | none => procScan env target rest

/-- Embedding of `NetworkMonitor::get_process_info`: inode 0 returns immediately with no
match; otherwise scan `/proc` for the owning process, and on a match insert
`pid → name` into the cache and return both. -/
def get_process_info (env : ProcEnv) (cache : Cache) (inode : Nat) :
    (Option Nat × Option String) × Cache :=
  if inode = 0 then ((none, none), cache)
  else
    match env.procDir with
    | none => ((none, none), cache)
    | some entries =>
      match procScan env inode entries with
      | some (pid, pname) => ((some pid, some pname), cacheInsert cache pid pname)
      | none => ((none, none), cache)

/-- The row loop of `parse_proc_net_file` over the already-split lines
(header removed): rows with fewer than 10 whitespace-separated fields are
skipped; for the rest, field 1 is the local token, field 2 the remote
token, field 3 the state code, field 7 the (unused) uid, field 9 the inode
(`u32`, default 0), and the resolver is consulted, threading the cache. -/
def parseRows (env : ProcEnv) (protocol : String) :
    List (List Char) → Cache → List Connection × Cache
  | [], cache => ([], cache)
  | line :: rest, cache =>
    let fields := splitWhitespace line
    if fields.length < 10 then parseRows env protocol rest cache
    else
      let localAddr := parse_address_val (fields.getD 1 [])
      let remoteAddr := parse_address_val (fields.getD 2 [])
      let state := parse_state_val (fields.getD 3 []) protocol
      let _uid := (fromStrRadix? 10 4294967296 (fields.getD 7 [])).getD 0
      let inode := (fromStrRadix? 10 4294967296 (fields.getD 9 [])).getD 0
      let r := get_process_info env cache inode
      let conn : Connection :=
        { protocol := protocol
          local_address := localAddr.1
          local_port := localAddr.2
          remote_address := remoteAddr.1
          remote_port := remoteAddr.2
          state := state
          pid := r.1.1
          process_name := r.1.2 }
      let rest' := parseRows env protocol rest r.2
      (conn :: rest'.1, rest'.2)

/-- Embedding of `NetworkMonitor::parse_proc_net_file`: enumerate the lines, skip index
0 (the header), and parse the remaining rows.  The source's `Result` wrapper
is elided: its only fallible calls are `parse_address` and `parse_state`,
which always return `Ok` (see the C4 theorem and `parse_state`), so the
`?` operators never propagate an error. -/
def parse_proc_net_file (env : ProcEnv) (cache : Cache) (content : List Char)
    (protocol : String) : List Connection × Cache :=
  parseRows env protocol ((rustLines content).drop 1) cache

/-- The four table files the aggregator reads (`none` when
`fs::read_to_string` fails), together with the process filesystem. -/
structure NetEnv where
  tcp4 : Option (List Char)
  tcp6 : Option (List Char)
  udp4 : Option (List Char)
  udp6 : Option (List Char)
  proc : ProcEnv

/-- One `if let Ok(content) = fs::read_to_string(...)` arm of the
aggregator: an unreadable source contributes no rows and leaves the cache
unchanged. -/
def readTable (penv : ProcEnv) (cache : Cache) (src : Option (List Char))
    (protocol : String) : List Connection × Cache :=
  match src with
  | none => ([], cache)
  | some content => parse_proc_net_file penv cache content protocol

/-- Embedding of `NetworkMonitor::parse_tcp_connections`: `/proc/net/tcp` then
`/proc/net/tcp6`, results concatenated. -/
def parse_tcp_connections (env : NetEnv) (cache : Cache) : List Connection × Cache :=
  let r4 := readTable env.proc cache env.tcp4 "TCP"
  let r6 := readTable env.proc r4.2 env.tcp6 "TCP6"
  (r4.1 ++ r6.1, r6.2)

/-- Embedding of `NetworkMonitor::parse_udp_connections`: `/proc/net/udp` then
`/proc/net/udp6`, results concatenated. -/
def parse_udp_connections (env : NetEnv) (cache : Cache) : List Connection × Cache :=
  let r4 := readTable env.proc cache env.udp4 "UDP"
  let r6 := readTable env.proc r4.2 env.udp6 "UDP6"
  (r4.1 ++ r6.1, r6.2)

/-- Embedding of `NetworkMonitor::get_connections`: TCP-family rows then UDP-family
rows.  The final return site in the source is `Ok(connections)` and the
inner `?` operators never carry an error (the table parser is total), so
the result is always `.ok`. -/
def get_connections (env : NetEnv) (cache : Cache) :
    Except String (List Connection) × Cache :=
  let tcp := parse_tcp_connections env cache
  let udp := parse_udp_connections env tcp.2
  (.ok (tcp.1 ++ udp.1), udp.2)

/-- Spec-side encoder for C1: the four octets of an IPv4 address packed as
a 32-bit word in little-endian byte order. -/
def ipv4WordLE (a b c d : Nat) : Nat :=
  a + 256 * b + 65536 * c + 16777216 * d

/-- Spec-side encoder: a 32-bit word as exactly 8 hex digit characters,
most significant first. -/
def toHex8 (n : Nat) : List Char :=
  [Nat.digitChar (n / 268435456 % 16), Nat.digitChar (n / 16777216 % 16),
   Nat.digitChar (n / 1048576 % 16), Nat.digitChar (n / 65536 % 16),
   Nat.digitChar (n / 4096 % 16), Nat.digitChar (n / 256 % 16),
   Nat.digitChar (n / 16 % 16), Nat.digitChar (n % 16)]

/-- Spec-side encoder for C5: one byte as two hex digit characters, high
nibble first. -/
def hexByte (b : Nat) : List Char :=
  [Nat.digitChar (b / 16), Nat.digitChar (b % 16)]

/-- Spec-side encoder for C5: a byte list as consecutive hex pairs. -/
def hexOfBytes (bs : List Nat) : List Char :=
  (bs.map hexByte).flatten

/-- A process filesystem on which every read fails. -/
def demoProcEnvEmpty : ProcEnv :=
  { procDir := none, fdLinks := fun _ => none, comm := fun _ => none }

/-- A small process filesystem: a non-numeric `/proc` entry, and process
100 holding a descriptor for socket inode 12345 with command name
`"demo"`. -/
def demoProcEnv : ProcEnv :=
  { procDir := some ["uptime", "100"]
    fdLinks := fun pid => if pid = 100 then some [some "socket:[12345]".data] else some []
    comm := fun pid => if pid = 100 then some "demo\n".data else none }

/-- A two-row table: a header, a well-formed row (local 127.0.0.1:8080,
state 0x0A, inode 12345) and an under-length row with 3 fields. -/
def demoTable : List Char :=
  ("sl local_address rem_address st tx_queue rx_queue tr tm-when retrnsmt uid timeout inode\n" ++
   "0: 0100007F:1F90 00000000:0000 0A 00000000:00000000 00:00000000 00000000 0 0 12345\n" ++
   "1: 0100007F:0050").data

/-- The connection decoded from the well-formed row of `demoTable` under
`demoProcEnv`. -/
def demoConn : Connection :=
  { protocol := "TCP", local_address := "127.0.0.1", local_port := 8080,
    remote_address := "0.0.0.0", remote_port := 0, state := "LISTEN",
    pid := some 100, process_name := some "demo" }

/-- A network environment where only the TCP/IPv4 table is readable. -/
def demoNetEnv : NetEnv :=
  { tcp4 := some demoTable, tcp6 := none, udp4 := none, udp6 := none,
    proc := demoProcEnvEmpty }

/-- A well-formed row whose inode field (index 9) is not a number. -/
def demoRowNoInode : List Char :=
  "0: 0100007F:1F90 00000000:0000 0A 00000000:00000000 00:00000000 00000000 0 0 trash".data

/-- The connection decoded from `demoRowNoInode`: the unparseable inode
defaults to 0, so no process is attached. -/
def demoConnNoPid : Connection :=
  { protocol := "TCP", local_address := "127.0.0.1", local_port := 8080,
    remote_address := "0.0.0.0", remote_port := 0, state := "LISTEN",
    pid := none, process_name := none }

/-! Supporting lemmas about the parsing primitives. -/

theorem digitVal_digitChar : ∀ d < 16, digitVal? 16 (Nat.digitChar d) = some d := by
  decide

theorem digitChar_notSign : ∀ d < 16,
    Nat.digitChar d ≠ '+' ∧ Nat.digitChar d ≠ '-' ∧ Nat.digitChar d ≠ ':' := by
  decide

theorem foldl16_le (ds : List Nat) : ∀ acc : Nat,
    acc ≤ List.foldl (fun a d => a * 16 + d) acc ds := by
  induction ds with
  | nil => intro acc; simp
  | cons d ds ih =>
    intro acc
    simp only [List.foldl_cons]
    exact le_trans (by omega) (ih (acc * 16 + d))

theorem parseRadixAux_digits (bound : Nat) :
    ∀ (ds : List Nat) (acc : Nat), (∀ d ∈ ds, d < 16) →
    List.foldl (fun a d => a * 16 + d) acc ds < bound →
    parseRadixAux 16 bound (ds.map Nat.digitChar) acc =
      some (List.foldl (fun a d => a * 16 + d) acc ds) := by
  intro ds
  induction ds with
  | nil => intro acc _ _; simp [parseRadixAux]
  | cons d ds ih =>
    intro acc hd hb
    have hd0 : d < 16 := hd d (List.mem_cons_self ..)
    simp only [List.foldl_cons] at hb ⊢
    have hacc : acc * 16 + d < bound := lt_of_le_of_lt (foldl16_le ds (acc * 16 + d)) hb
    simp only [List.map_cons, parseRadixAux, digitVal_digitChar d hd0, if_pos hacc]
    exact ih (acc * 16 + d) (fun x hx => hd x (List.mem_cons_of_mem _ hx)) hb

theorem fromStrRadix_digits (bound : Nat) (d : Nat) (ds : List Nat)
    (hd : d < 16) (hds : ∀ x ∈ ds, x < 16)
    (hb : List.foldl (fun a x => a * 16 + x) 0 (d :: ds) < bound) :
    fromStrRadix? 16 bound ((d :: ds).map Nat.digitChar) =
      some (List.foldl (fun a x => a * 16 + x) 0 (d :: ds)) := by
  have h1 := (digitChar_notSign d hd).1
  have h2 := (digitChar_notSign d hd).2.1
  have hall : ∀ x ∈ d :: ds, x < 16 := by
    intro x hx
    rcases List.mem_cons.mp hx with h | h
    · exact h ▸ hd
    · exact hds x h
  simp only [List.map_cons, fromStrRadix?, if_neg h1, if_neg h2]
  simpa using parseRadixAux_digits bound (d :: ds) 0 hall hb

theorem splitOnChar_not_mem {sep : Char} : ∀ {l : List Char}, sep ∉ l →
    splitOnChar sep l = [l] := by
  intro l
  induction l with
  | nil => intro _; rfl
  | cons c rest ih =>
    intro h
    have hc : ¬(c = sep) := fun e => h (by rw [e]; exact List.mem_cons_self ..)
    have hr : sep ∉ rest := fun hm => h (List.mem_cons_of_mem _ hm)
    simp only [splitOnChar, if_neg hc, ih hr]

theorem splitOnChar_append (sep : Char) :
    ∀ (l1 l2 : List Char), sep ∉ l1 →
    splitOnChar sep (l1 ++ sep :: l2) = l1 :: splitOnChar sep l2 := by
  intro l1
  induction l1 with
  | nil => intro l2 _; simp [splitOnChar]
  | cons c rest ih =>
    intro l2 h
    have hc : ¬(c = sep) := fun e => h (by rw [e]; exact List.mem_cons_self ..)
    have hr : sep ∉ rest := fun hm => h (List.mem_cons_of_mem _ hm)
    simp [splitOnChar, hc, ih l2 hr]

theorem parse_address_pair {a p : List Char} (ha : ':' ∉ a) (hp : ':' ∉ p) :
    parse_address (a ++ ':' :: p) =
      .ok (addrFromHex a, (fromStrRadix? 16 65536 p).getD 0) := by
  have hs : splitOnChar ':' (a ++ ':' :: p) = [a, p] := by
    rw [splitOnChar_append ':' a p ha, splitOnChar_not_mem hp]
  simp [parse_address, hs]

theorem colon_not_mem_toHex8 (n : Nat) : ':' ∉ toHex8 n := by
  intro h
  simp only [toHex8, List.mem_cons, List.not_mem_nil, or_false] at h
  rcases h with h | h | h | h | h | h | h | h <;>
    exact absurd h.symm (digitChar_notSign _ (Nat.mod_lt _ (by norm_num))).2.2

theorem fromStrRadix_toHex8 (n : Nat) (hn : n < 4294967296) :
    fromStrRadix? 16 4294967296 (toHex8 n) = some n := by
  have hmap : toHex8 n =
      (n / 268435456 % 16 ::
        [n / 16777216 % 16, n / 1048576 % 16, n / 65536 % 16,
         n / 4096 % 16, n / 256 % 16, n / 16 % 16, n % 16]).map Nat.digitChar := by
    simp [toHex8]
  have hfold :
      List.foldl (fun a x => a * 16 + x) 0
        (n / 268435456 % 16 ::
          [n / 16777216 % 16, n / 1048576 % 16, n / 65536 % 16,
           n / 4096 % 16, n / 256 % 16, n / 16 % 16, n % 16]) = n := by
    simp only [List.foldl_cons, List.foldl_nil]
    omega
  rw [hmap, fromStrRadix_digits _ _ _ (Nat.mod_lt _ (by norm_num))
    (by intro x hx; simp only [List.mem_cons, List.not_mem_nil, or_false] at hx
        rcases hx with h | h | h | h | h | h | h <;> subst h <;>
          exact Nat.mod_lt _ (by norm_num))
    (by rw [hfold]; exact hn), hfold]

theorem hexPairParse (b : Nat) (hb : b < 256) :
    fromStrRadix? 16 256 [Nat.digitChar (b / 16), Nat.digitChar (b % 16)] = some b := by
  have hmap : [Nat.digitChar (b / 16), Nat.digitChar (b % 16)] =
      (b / 16 :: [b % 16]).map Nat.digitChar := by simp
  have hfold : List.foldl (fun a x => a * 16 + x) 0 (b / 16 :: [b % 16]) = b := by
    simp only [List.foldl_cons, List.foldl_nil]
    omega
  rw [hmap, fromStrRadix_digits _ _ _ (by omega)
    (by intro x hx; simp only [List.mem_cons, List.not_mem_nil, or_false] at hx
        subst hx; exact Nat.mod_lt _ (by norm_num))
    (by rw [hfold]; exact hb), hfold]

/-- C1: for every representable IPv4 address (four octets, each below 256),
encoding the octets as an 8-hex-digit word in little-endian byte order and
decoding that token with `parse_address` reproduces the original
dotted-decimal text of the address. -/
theorem ipv4_roundtrip (a b c d : Nat)
    (ha : a < 256) (hb : b < 256) (hc : c < 256) (hd : d < 256) :
    parse_address (toHex8 (ipv4WordLE a b c d) ++ ':' :: "0000".data) =
      .ok (ipv4ToString a b c d, 0) := by
  have hp : ':' ∉ "0000".data := by decide
  rw [parse_address_pair (colon_not_mem_toHex8 _) hp]
  have hn : ipv4WordLE a b c d < 4294967296 := by unfold ipv4WordLE; omega
  have hlen : (toHex8 (ipv4WordLE a b c d)).length = 8 := by simp [toHex8]
  have hport : (fromStrRadix? 16 65536 "0000".data).getD 0 = 0 := by rfl
  rw [hport]
  simp only [addrFromHex, hlen, if_pos, fromStrRadix_toHex8 _ hn, Option.getD_some]
  have e1 : ipv4WordLE a b c d % 256 = a := by unfold ipv4WordLE; omega
  have e2 : ipv4WordLE a b c d / 256 % 256 = b := by unfold ipv4WordLE; omega
  have e3 : ipv4WordLE a b c d / 65536 % 256 = c := by unfold ipv4WordLE; omega
  have e4 : ipv4WordLE a b c d / 16777216 % 256 = d := by unfold ipv4WordLE; omega
  rw [e1, e2, e3, e4]

/-- C1 witness at the address 127.0.0.1. -/
theorem ipv4_roundtrip_witness :
    parse_address (toHex8 (ipv4WordLE 127 0 0 1) ++ ':' :: "0000".data) =
      .ok (ipv4ToString 127 0 0 1, 0) :=
  ipv4_roundtrip 127 0 0 1 (by decide) (by decide) (by decide) (by decide)

/-- C4: the address decoder always returns a value (`.ok`); a token that
does not split into exactly two pieces at `':'` yields address `"0.0.0.0"`
and port 0, and a token whose address piece has a length other than 8 or
32 yields address `"0.0.0.0"`. -/
theorem parse_address_total (cs : List Char) :
    (∃ v, parse_address cs = .ok v) ∧
    ((splitOnChar ':' cs).length ≠ 2 → parse_address cs = .ok ("0.0.0.0", 0)) ∧
    (∀ a p : List Char, splitOnChar ':' cs = [a, p] → a.length ≠ 8 → a.length ≠ 32 →
      parse_address cs = .ok ("0.0.0.0", (fromStrRadix? 16 65536 p).getD 0)) := by
  refine ⟨?_, ?_, ?_⟩
  · unfold parse_address
    by_cases h : (splitOnChar ':' cs).length ≠ 2
    · exact ⟨_, by rw [if_pos h]⟩
    · exact ⟨_, by rw [if_neg h]⟩
  · intro h
    unfold parse_address
    rw [if_pos h]
  · intro a p hsp h8 h32
    simp only [parse_address, hsp, List.length_cons, List.length_nil, List.getD]
    norm_num
    simp [addrFromHex, h8, h32]

/-- C4 witness: a token without a colon, and a token whose address part has
length 3. -/
theorem parse_address_total_witness :
    parse_address "noport".data = .ok ("0.0.0.0", 0) ∧
    parse_address "ABC:0050".data = .ok ("0.0.0.0", 80) := by
  constructor
  · exact (parse_address_total "noport".data).2.1 (by decide)
  · have h := (parse_address_total "ABC:0050".data).2.2 "ABC".data "0050".data
      (by rfl) (by decide) (by decide)
    rw [h]
    rfl

/-- C6: the 4-hex-digit port field decodes as an unsigned 16-bit big-endian
integer (the first hex pair is the high byte); in particular `"0050"` gives
port 80 and `"1F90"` gives port 8080. -/
theorem port_decode :
    (∀ (a : List Char), ':' ∉ a → ∀ v1 v2 v3 v4 : Nat,
       v1 < 16 → v2 < 16 → v3 < 16 → v4 < 16 →
       parse_address (a ++ ':' ::
           [Nat.digitChar v1, Nat.digitChar v2, Nat.digitChar v3, Nat.digitChar v4]) =
         .ok (addrFromHex a, (16 * v1 + v2) * 256 + (16 * v3 + v4))) ∧
    parse_address "00000000:0050".data = .ok ("0.0.0.0", 80) ∧
    parse_address "00000000:1F90".data = .ok ("0.0.0.0", 8080) := by
  refine ⟨?_, by rfl, by rfl⟩
  intro a ha v1 v2 v3 v4 h1 h2 h3 h4
  have hpm : ':' ∉ [Nat.digitChar v1, Nat.digitChar v2, Nat.digitChar v3,
      Nat.digitChar v4] := by
    intro hm
    simp only [List.mem_cons, List.not_mem_nil, or_false] at hm
    rcases hm with h | h | h | h <;>
      exact absurd h.symm (digitChar_notSign _ (by assumption)).2.2
  rw [parse_address_pair ha hpm]
  have hmap : [Nat.digitChar v1, Nat.digitChar v2, Nat.digitChar v3, Nat.digitChar v4] =
      (v1 :: [v2, v3, v4]).map Nat.digitChar := by simp
  have hfold : List.foldl (fun acc x => acc * 16 + x) 0 (v1 :: [v2, v3, v4]) =
      (16 * v1 + v2) * 256 + (16 * v3 + v4) := by
    simp only [List.foldl_cons, List.foldl_nil]
    omega
  rw [hmap, fromStrRadix_digits 65536 v1 [v2, v3, v4] h1
    (by intro x hx
        simp only [List.mem_cons, List.not_mem_nil, or_false] at hx
        rcases hx with h | h | h <;> subst h <;> assumption)
    (by rw [hfold]; omega), hfold]
  rfl

/-- C6 witness: the general big-endian statement applied at the digits of
`"1F90"` (1, 15, 9, 0), giving port 8080. -/
theorem port_decode_witness :
    parse_address ("00000000".data ++ ':' ::
        [Nat.digitChar 1, Nat.digitChar 15, Nat.digitChar 9, Nat.digitChar 0]) =
      .ok (addrFromHex "00000000".data, (16 * 1 + 15) * 256 + (16 * 9 + 0)) :=
  port_decode.1 "00000000".data (by decide) 1 15 9 0
    (by decide) (by decide) (by decide) (by decide)

/-- C2: under a TCP-family tag the classifier is the state table applied to
the parsed code byte, and that table sends codes 1 through 0x0B to the
eleven named states (0x0A to `"LISTEN"`) and everything else to
`"UNKNOWN"`; under a UDP-family tag the result is the empty string for
every raw field. -/
theorem state_classifier :
    (∀ cs : List Char, parse_state_val cs "UDP" = "" ∧ parse_state_val cs "UDP6" = "") ∧
    (∀ cs : List Char,
       parse_state_val cs "TCP" = tcpStateName ((fromStrRadix? 16 256 cs).getD 0) ∧
       parse_state_val cs "TCP6" = tcpStateName ((fromStrRadix? 16 256 cs).getD 0)) ∧
    (tcpStateName 1 = "ESTABLISHED" ∧ tcpStateName 2 = "SYN_SENT" ∧
     tcpStateName 3 = "SYN_RECV" ∧ tcpStateName 4 = "FIN_WAIT1" ∧
     tcpStateName 5 = "FIN_WAIT2" ∧ tcpStateName 6 = "TIME_WAIT" ∧
     tcpStateName 7 = "CLOSE" ∧ tcpStateName 8 = "CLOSE_WAIT" ∧
     tcpStateName 9 = "LAST_ACK" ∧ tcpStateName 10 = "LISTEN" ∧
     tcpStateName 11 = "CLOSING") ∧
    (∀ n : Nat, n = 0 ∨ 11 < n → tcpStateName n = "UNKNOWN") ∧
    parse_state_val ['0', 'A'] "TCP" = "LISTEN" := by
  refine ⟨?_, ?_, by decide, ?_, by rfl⟩
  · intro cs
    constructor <;> rfl
  · intro cs
    constructor <;> rfl
  · intro n hn
    unfold tcpStateName
    split <;> first | rfl | omega

/-- C2 witness: code 0x0A is outside none of the clauses — instantiate the
unmapped-code clause at code 12 and the UDP clause at the raw field
`"0A"`. -/
theorem state_classifier_witness :
    tcpStateName 12 = "UNKNOWN" ∧ parse_state_val ['0', 'A'] "UDP" = "" := by
  constructor
  · exact state_classifier.2.2.2.1 12 (by decide)
  · exact (state_classifier.1 ['0', 'A']).1

theorem hexOfBytes_cons (b : Nat) (bs : List Nat) :
    hexOfBytes (b :: bs) = hexByte b ++ hexOfBytes bs := by
  simp [hexOfBytes]

theorem hexOfBytes_length : ∀ bs : List Nat, (hexOfBytes bs).length = 2 * bs.length := by
  intro bs
  induction bs with
  | nil => rfl
  | cons b bs ih =>
    rw [hexOfBytes_cons]
    simp only [List.length_append, List.length_cons, ih, hexByte, List.length_nil]
    omega

theorem colon_not_mem_hexOfBytes :
    ∀ bs : List Nat, (∀ b ∈ bs, b < 256) → ':' ∉ hexOfBytes bs := by
  intro bs
  induction bs with
  | nil => intro _ h; simp [hexOfBytes] at h
  | cons b bs ih =>
    intro hb hm
    have hb0 : b < 256 := hb b (List.mem_cons_self ..)
    rw [hexOfBytes_cons] at hm
    rcases List.mem_append.mp hm with h | h
    · simp only [hexByte, List.mem_cons, List.not_mem_nil, or_false] at h
      rcases h with h | h
      · exact absurd h.symm (digitChar_notSign _ (by omega)).2.2
      · exact absurd h.symm (digitChar_notSign _ (Nat.mod_lt _ (by norm_num))).2.2
    · exact ih (fun x hx => hb x (List.mem_cons_of_mem _ hx)) h

theorem hexOfBytes_drop_take :
    ∀ (bs : List Nat) (i : Nat), i < bs.length →
      ((hexOfBytes bs).drop (2 * i)).take 2 = hexByte (bs.getD i 0) := by
  intro bs
  induction bs with
  | nil => intro i h; simp at h
  | cons b bs ih =>
    intro i hi
    cases i with
    | zero =>
      rw [hexOfBytes_cons]
      simp [hexByte]
    | succ i =>
      rw [hexOfBytes_cons]
      have h2 : 2 * (i + 1) = 2 * i + 2 := by omega
      simp only [h2, hexByte, List.cons_append, List.drop_succ_cons, List.nil_append,
        List.getD_cons_succ]
      exact ih i (by simpa using hi)

theorem ipv6Bytes_hexOfBytes (bs : List Nat) (hlen : bs.length = 16)
    (hb : ∀ b ∈ bs, b < 256) : ipv6Bytes (hexOfBytes bs) = bs := by
  have hl : (hexOfBytes bs).length = 32 := by rw [hexOfBytes_length, hlen]
  apply List.ext_getElem
  · simp [ipv6Bytes, hlen]
  · intro i h1 h2
    have hi16 : i < 16 := by simpa [ipv6Bytes] using h1
    simp only [ipv6Bytes, List.getElem_map, List.getElem_range]
    have hguard : 2 * i + 2 ≤ (hexOfBytes bs).length := by omega
    rw [ipv6ByteAt, if_pos hguard, hexOfBytes_drop_take bs i (by omega)]
    have hmem : bs.getD i 0 ∈ bs := by
      rw [List.getD_eq_getElem bs 0 (by omega)]
      exact List.getElem_mem _
    simp only [hexByte]
    rw [hexPairParse _ (hb _ hmem), Option.getD_some,
      List.getD_eq_getElem bs 0 (by omega)]

/-- C5: a 32-hex-digit address token is decoded by interpreting each
consecutive hex pair as one octet, in the order given, and rendering the
16 bytes as canonical IPv6 text; the fixture
`"00000000000000000000000001000000"` decodes to the text of the address
whose bytes are all zero except byte 12 (value 1), namely `"::100:0"`. -/
theorem ipv6_decode (bs : List Nat) (hlen : bs.length = 16)
    (hb : ∀ b ∈ bs, b < 256) :
    parse_address (hexOfBytes bs ++ ':' :: "0000".data) = .ok (ipv6ToString bs, 0) ∧
    parse_address "00000000000000000000000001000000:0000".data =
      .ok (ipv6ToString [0, 0, 0, 0, 0, 0, 0, 0, 0, 0, 0, 0, 1, 0, 0, 0], 0) ∧
    ipv6ToString [0, 0, 0, 0, 0, 0, 0, 0, 0, 0, 0, 0, 1, 0, 0, 0] = "::100:0" := by
  refine ⟨?_, by rfl, by rfl⟩
  rw [parse_address_pair (colon_not_mem_hexOfBytes bs hb) (by decide)]
  have hl : (hexOfBytes bs).length = 32 := by rw [hexOfBytes_length, hlen]
  simp only [addrFromHex, hl]
  norm_num
  rw [ipv6Bytes_hexOfBytes bs hlen hb]
  exact ⟨rfl, rfl⟩

/-- C5 witness: the general byte-order statement applied at the fixture's
byte list. -/
theorem ipv6_decode_witness :
    parse_address
        (hexOfBytes [0, 0, 0, 0, 0, 0, 0, 0, 0, 0, 0, 0, 1, 0, 0, 0] ++
          ':' :: "0000".data) =
      .ok (ipv6ToString [0, 0, 0, 0, 0, 0, 0, 0, 0, 0, 0, 0, 1, 0, 0, 0], 0) :=
  (ipv6_decode [0, 0, 0, 0, 0, 0, 0, 0, 0, 0, 0, 0, 1, 0, 0, 0]
    (by decide) (by decide)).1

theorem gpi_shape (env : ProcEnv) (c : Cache) (inode : Nat) :
    (get_process_info env c inode).1 = (none, none) ∨
    ∃ p n, (get_process_info env c inode).1 = (some p, some n) ∧
      (get_process_info env c inode).2 = cacheInsert c p n := by
  by_cases hi : inode = 0
  · left
    simp only [get_process_info, if_pos hi]
  · cases hd : env.procDir with
    | none =>
      left
      simp only [get_process_info, if_neg hi, hd]
    | some entries =>
      cases hs : procScan env inode entries with
      | none =>
        left
        simp only [get_process_info, if_neg hi, hd, hs]
      | some pr =>
        obtain ⟨q, m⟩ := pr
        right
        refine ⟨q, m, ?_, ?_⟩ <;> simp only [get_process_info, if_neg hi, hd, hs]

theorem gpi_isSome (env : ProcEnv) (c : Cache) (inode : Nat) :
    (get_process_info env c inode).1.1.isSome =
      (get_process_info env c inode).1.2.isSome := by
  rcases gpi_shape env c inode with h | ⟨p, n, h, _⟩ <;> rw [h] <;> rfl

theorem parseRows_cons_lt (env : ProcEnv) (proto : String) (line : List Char)
    (rest : List (List Char)) (c : Cache)
    (h : (splitWhitespace line).length < 10) :
    parseRows env proto (line :: rest) c = parseRows env proto rest c := by
  simp only [parseRows]
  rw [if_pos h]

theorem parseRows_cons_ge (env : ProcEnv) (proto : String) (line : List Char)
    (rest : List (List Char)) (c : Cache)
    (h : ¬ (splitWhitespace line).length < 10) :
    parseRows env proto (line :: rest) c =
      ({ protocol := proto
         local_address := (parse_address_val ((splitWhitespace line).getD 1 [])).1
         local_port := (parse_address_val ((splitWhitespace line).getD 1 [])).2
         remote_address := (parse_address_val ((splitWhitespace line).getD 2 [])).1
         remote_port := (parse_address_val ((splitWhitespace line).getD 2 [])).2
         state := parse_state_val ((splitWhitespace line).getD 3 []) proto
         pid := (get_process_info env c
           ((fromStrRadix? 10 4294967296 ((splitWhitespace line).getD 9 [])).getD 0)).1.1
         process_name := (get_process_info env c
           ((fromStrRadix? 10 4294967296 ((splitWhitespace line).getD 9 [])).getD 0)).1.2 } ::
        (parseRows env proto rest
          (get_process_info env c
            ((fromStrRadix? 10 4294967296 ((splitWhitespace line).getD 9 [])).getD 0)).2).1,
       (parseRows env proto rest
         (get_process_info env c
           ((fromStrRadix? 10 4294967296 ((splitWhitespace line).getD 9 [])).getD 0)).2).2) := by
  simp only [parseRows]
  rw [if_neg h]

theorem parseRows_mem (env : ProcEnv) (proto : String) :
    ∀ (lines : List (List Char)) (c : Cache) (conn : Connection),
      conn ∈ (parseRows env proto lines c).1 →
      conn.pid.isSome = conn.process_name.isSome ∧ conn.protocol = proto := by
  intro lines
  induction lines with
  | nil => intro c conn h; simp [parseRows] at h
  | cons line rest ih =>
    intro c conn h
    by_cases hf : (splitWhitespace line).length < 10
    · rw [parseRows_cons_lt env proto line rest c hf] at h
      exact ih c conn h
    · rw [parseRows_cons_ge env proto line rest c hf] at h
      rcases List.mem_cons.mp h with h | h
      · subst h
        exact ⟨gpi_isSome env c _, rfl⟩
      · exact ih _ conn h

theorem parseRows_length (env : ProcEnv) (proto : String) :
    ∀ (lines : List (List Char)) (c : Cache),
      (parseRows env proto lines c).1.length =
        (lines.filter (fun l => 10 ≤ (splitWhitespace l).length)).length := by
  intro lines
  induction lines with
  | nil => intro c; rfl
  | cons line rest ih =>
    intro c
    by_cases hf : (splitWhitespace line).length < 10
    · have hp : ¬ (10 ≤ (splitWhitespace line).length) := by omega
      rw [parseRows_cons_lt env proto line rest c hf, ih c]
      simp [List.filter_cons, hp]
    · have hp : 10 ≤ (splitWhitespace line).length := by omega
      rw [parseRows_cons_ge env proto line rest c hf]
      simp [List.filter_cons, hp, ih]

theorem readTable_protocol (penv : ProcEnv) (c : Cache) (src : Option (List Char))
    (p : String) : ∀ conn ∈ (readTable penv c src p).1, conn.protocol = p := by
  intro conn h
  cases src with
  | none => simp [readTable] at h
  | some content =>
    exact (parseRows_mem penv p _ _ conn
      (by simpa [readTable, parse_proc_net_file] using h)).2

/-- C3: the first line of every table is discarded as a header; a row that
splits into fewer than 10 whitespace-separated fields is dropped without
any error; every surviving row yields exactly one connection; and the
two-row demo table (one well-formed row, one 3-field row) yields exactly
the connection decoded from the well-formed row. -/
theorem table_leniency :
    (∀ (env : ProcEnv) (proto : String) (line : List Char)
       (rest : List (List Char)) (c : Cache),
       (splitWhitespace line).length < 10 →
       parseRows env proto (line :: rest) c = parseRows env proto rest c) ∧
    (∀ (env : ProcEnv) (c : Cache) (content : List Char) (proto : String),
       parse_proc_net_file env c content proto =
         parseRows env proto ((rustLines content).drop 1) c ∧
       (parse_proc_net_file env c content proto).1.length =
         (((rustLines content).drop 1).filter
           (fun l => 10 ≤ (splitWhitespace l).length)).length) ∧
    parse_proc_net_file demoProcEnv [] demoTable "TCP" =
      ([demoConn], [(100, "demo")]) := by
  refine ⟨parseRows_cons_lt, ?_, by rfl⟩
  intro env c content proto
  exact ⟨rfl, parseRows_length env proto _ c⟩

/-- C3 witness: the under-length demo row is dropped. -/
theorem table_leniency_witness :
    parseRows demoProcEnvEmpty "TCP" ["1: 0100007F:0050".data] [] =
      parseRows demoProcEnvEmpty "TCP" [] [] :=
  table_leniency.1 demoProcEnvEmpty "TCP" "1: 0100007F:0050".data [] [] (by decide)

/-- C7: the aggregate is the concatenation TCP/IPv4, TCP/IPv6, UDP/IPv4,
UDP/IPv6 (threading the cache left to right), always wrapped in `.ok`; an
unreadable source contributes zero rows; and when both UDP sources are
unreadable the result is exactly the TCP-family rows, all of which carry a
TCP-family protocol tag. -/
theorem aggregator_order :
    (∀ (env : NetEnv) (c : Cache),
       get_connections env c =
         (let r1 := readTable env.proc c env.tcp4 "TCP"
          let r2 := readTable env.proc r1.2 env.tcp6 "TCP6"
          let r3 := readTable env.proc r2.2 env.udp4 "UDP"
          let r4 := readTable env.proc r3.2 env.udp6 "UDP6"
          (.ok ((r1.1 ++ r2.1) ++ (r3.1 ++ r4.1)), r4.2))) ∧
    (∀ (penv : ProcEnv) (c : Cache) (proto : String),
       readTable penv c none proto = ([], c)) ∧
    (∀ (env : NetEnv) (c : Cache), env.udp4 = none → env.udp6 = none →
       (get_connections env c).1 = .ok (parse_tcp_connections env c).1 ∧
       ∀ conn ∈ (parse_tcp_connections env c).1,
         conn.protocol = "TCP" ∨ conn.protocol = "TCP6") := by
  refine ⟨fun env c => rfl, fun penv c proto => rfl, ?_⟩
  intro env c h4 h6
  constructor
  · simp only [get_connections, parse_udp_connections, h4, h6, readTable]
    simp
  · intro conn hm
    unfold parse_tcp_connections at hm
    rcases List.mem_append.mp hm with h | h
    · exact Or.inl (readTable_protocol env.proc c env.tcp4 "TCP" conn h)
    · exact Or.inr (readTable_protocol env.proc _ env.tcp6 "TCP6" conn h)

/-- C7 witness: with only the TCP/IPv4 table readable, the call succeeds
and returns exactly the TCP rows. -/
theorem aggregator_order_witness :
    (get_connections demoNetEnv []).1 = .ok (parse_tcp_connections demoNetEnv []).1 :=
  (aggregator_order.2.2 demoNetEnv [] rfl rfl).1

/-- C8: the inode comes from field index 9 as an unsigned integer
defaulting to 0 (the produced connection's pid and name are the resolver's
answer at exactly that inode), and resolving inode 0 returns no match and
an unchanged cache under every environment and cache. -/
theorem inode_resolution :
    (∀ (env : ProcEnv) (c : Cache), get_process_info env c 0 = ((none, none), c)) ∧
    (∀ (env : ProcEnv) (proto : String) (line : List Char)
       (rest : List (List Char)) (c : Cache),
       ¬ (splitWhitespace line).length < 10 →
       ∀ hconn : Connection,
         (parseRows env proto (line :: rest) c).1.head? = some hconn →
         hconn.pid = (get_process_info env c
           ((fromStrRadix? 10 4294967296
             ((splitWhitespace line).getD 9 [])).getD 0)).1.1 ∧
         hconn.process_name = (get_process_info env c
           ((fromStrRadix? 10 4294967296
             ((splitWhitespace line).getD 9 [])).getD 0)).1.2) := by
  constructor
  · intro env c
    simp [get_process_info]
  · intro env proto line rest c hf hconn hh
    rw [parseRows_cons_ge env proto line rest c hf] at hh
    simp only [List.head?_cons, Option.some.injEq] at hh
    subst hh
    exact ⟨rfl, rfl⟩

/-- C8 witness: inode 0 short-circuits, and a row whose inode field is
`"trash"` resolves at inode 0, attaching no process. -/
theorem inode_resolution_witness :
    get_process_info demoProcEnv [] 0 = ((none, none), []) ∧
    demoConnNoPid.pid = (get_process_info demoProcEnv []
      ((fromStrRadix? 10 4294967296
        ((splitWhitespace demoRowNoInode).getD 9 [])).getD 0)).1.1 ∧
    demoConnNoPid.process_name = (get_process_info demoProcEnv []
      ((fromStrRadix? 10 4294967296
        ((splitWhitespace demoRowNoInode).getD 9 [])).getD 0)).1.2 :=
  ⟨inode_resolution.1 demoProcEnv [],
   inode_resolution.2 demoProcEnv "TCP" demoRowNoInode [] [] (by decide)
     demoConnNoPid (by rfl)⟩

/-- C9: the resolver returns pid and name both present or both absent; the
same holds for every connection the row loop produces; and a pid whose
descriptor scan yields no name (including a matching descriptor with an
unreadable name record) is treated as a non-match and the scan continues
with the remaining entries. -/
theorem pid_name_paired :
    (∀ (env : ProcEnv) (c : Cache) (inode : Nat),
       (get_process_info env c inode).1.1.isSome =
         (get_process_info env c inode).1.2.isSome) ∧
    (∀ (env : ProcEnv) (proto : String) (lines : List (List Char)) (c : Cache)
       (conn : Connection), conn ∈ (parseRows env proto lines c).1 →
       conn.pid.isSome = conn.process_name.isSome) ∧
    (∀ (env : ProcEnv) (target : Nat) (nm : String) (rest : List String) (pid : Nat),
       fromStrRadix? 10 4294967296 nm.data = some pid →
       get_process_name_by_inode env pid target = none →
       procScan env target (nm :: rest) = procScan env target rest) := by
  refine ⟨gpi_isSome, ?_, ?_⟩
  · intro env proto lines c conn h
    exact (parseRows_mem env proto lines c conn h).1
  · intro env target nm rest pid h1 h2
    simp only [procScan, h1, h2]

/-- C9 witness: the resolved demo connection has both pid and name, and a
pid with no matching descriptor is skipped and the scan continues. -/
theorem pid_name_paired_witness :
    demoConn.pid.isSome = demoConn.process_name.isSome ∧
    procScan demoProcEnv 99999 ["100"] = procScan demoProcEnv 99999 [] :=
  ⟨pid_name_paired.2.1 demoProcEnv "TCP" ((rustLines demoTable).drop 1) [] demoConn
     (by decide),
   pid_name_paired.2.2 demoProcEnv 99999 "100" [] 100 (by rfl) (by rfl)⟩

/-- C10: the resolver's answer is identical under any two cache states (the
cache is never read on the resolution path), and on a successful match the
new cache is exactly the old one with `pid → name` inserted. -/
theorem cache_not_read :
    (∀ (env : ProcEnv) (c1 c2 : Cache) (inode : Nat),
       (get_process_info env c1 inode).1 = (get_process_info env c2 inode).1) ∧
    (∀ (env : ProcEnv) (c : Cache) (inode p : Nat) (n : String),
       (get_process_info env c inode).1 = (some p, some n) →
       (get_process_info env c inode).2 = cacheInsert c p n) := by
  constructor
  · intro env c1 c2 inode
    by_cases hi : inode = 0
    · simp [get_process_info, hi]
    · cases hd : env.procDir with
      | none => simp [get_process_info, hi, hd]
      | some entries =>
        cases hs : procScan env inode entries with
        | none => simp [get_process_info, hi, hd, hs]
        | some pr =>
          obtain ⟨q, m⟩ := pr
          simp [get_process_info, hi, hd, hs]
  · intro env c inode p n h
    rcases gpi_shape env c inode with hh | ⟨q, m, hh, hc⟩
    · rw [hh] at h
      simp at h
    · rw [hh] at h
      simp only [Prod.mk.injEq, Option.some.injEq] at h
      rw [hc, h.1, h.2]

/-- C10 witness: two different caches give the same answer for the demo
inode, and the successful match writes exactly `100 → "demo"`. -/
theorem cache_not_read_witness :
    (get_process_info demoProcEnv [(5, "x")] 12345).1 =
      (get_process_info demoProcEnv [] 12345).1 ∧
    (get_process_info demoProcEnv [] 12345).2 = cacheInsert [] 100 "demo" :=
  ⟨cache_not_read.1 demoProcEnv [(5, "x")] [] 12345,
   cache_not_read.2 demoProcEnv [] 12345 100 "demo" (by rfl)⟩
